import Mathlib

/-!
Verification development for the horizon-lbt voice-assessment pipeline.

The definitions below are a shallow embedding of the JavaScript sources:

* `src/services/assessmentService.js` — `parseGradingResponse`,
  `calculateStreak`, `assessVoice`
* `src/services/firebaseService.js` — `retryWithBackoff`, `upsertUser`,
  `storeAssessment`, `getUserAssessments`, `updateUserStats`
* `src/services/openaiService.js` — `retryOnce`, `transcribeAudio`,
  `gradeTranscript`
* `src/services/lessonService.js` — `getLesson`

Strings are modelled as `List Char`; the JavaScript regular expressions of
the parser are modelled by dedicated scanning functions that reproduce the
engine's behaviour (leftmost match, greedy `\s*`, lazy `(.+?)` with a
lookahead, case-insensitive comparison by ASCII case folding).
-/

namespace Horizon

/-- ASCII case folding, modelling the effect of the `i` regex flag on the
ASCII label characters used by the source regexes. -/
def lowerC (c : Char) : Char := Char.toLower c

/-- Case-insensitive character equality. -/
def eqCI (p c : Char) : Bool := lowerC p == lowerC c

/-- `startsWithCI pat s` — `s` begins with `pat`, case-insensitively. -/
def startsWithCI : List Char → List Char → Bool
  | [], _ => true
  | _ :: _, [] => false
  | p :: ps, c :: cs => eqCI p c && startsWithCI ps cs

/-- JavaScript `\s` on the ASCII range (the source never feeds the parser
non-ASCII whitespace; Unicode spaces are not modelled). -/
def jsWs (c : Char) : Bool :=
  c == ' ' || c == '\t' || c == '\n' || c == '\r' || c == '\x0b' || c == '\x0c'

/-- Value of a decimal digit string, as `parseInt(·, 10)` computes it. -/
def digitsToNat (ds : List Char) : Nat :=
  ds.foldl (fun n c => 10 * n + (c.toNat - 48)) 0

/-- The literal `SCORE:` of the score regex. -/
abbrev scoreLabel : List Char := ['S', 'C', 'O', 'R', 'E', ':']

/-- The literal `/100` of the score regex. -/
abbrev slash100 : List Char := ['/', '1', '0', '0']

/-- The literal `FEEDBACK:`. -/
abbrev feedbackLabel : List Char := ['F', 'E', 'E', 'D', 'B', 'A', 'C', 'K', ':']

/-- The literal `STRENGTHS:`. -/
abbrev strengthsLabel : List Char := ['S', 'T', 'R', 'E', 'N', 'G', 'T', 'H', 'S', ':']

/-- The literal `WEAK_AREAS:`. -/
abbrev weakAreasLabel : List Char := ['W', 'E', 'A', 'K', '_', 'A', 'R', 'E', 'A', 'S', ':']

/-- After `SCORE:` and the maximal whitespace run: a maximal nonempty digit
run followed by the literal `/100`. -/
def scoreTail (rs : List Char) : Option Nat :=
  if (rs.takeWhile Char.isDigit).isEmpty then none
  else if startsWithCI slash100 (rs.drop (rs.takeWhile Char.isDigit).length) then
    some (digitsToNat (rs.takeWhile Char.isDigit))
  else none

/-- Attempt of `/SCORE:\s*(\d+)\/100/i` at the current position: the label,
then the maximal whitespace run, then a maximal nonempty digit run, then the
literal `/100`.  (Backtracking cannot produce any other division: a shorter
`\s*` would put a whitespace character under `\d`, and a shorter `\d+` would
put a digit under `/`.) -/
def scoreAt (s : List Char) : Option Nat :=
  if startsWithCI scoreLabel s then
    scoreTail ((s.drop scoreLabel.length).dropWhile jsWs)
  else none

/-- Leftmost match of the score regex: try `scoreAt` at every position. -/
def scanScore : List Char → Option Nat
  | [] => none
  | c :: cs =>
    match scoreAt (c :: cs) with
    | some n => some n
    | none => scanScore cs

/-- The lookahead `(?=\n|STOP₁|…|$)` of the section regexes: holds at the end
of input, before a newline (when `nl` is set) and before any stop label. -/
def stopHere (nl : Bool) (stops : List (List Char)) : List Char → Bool
  | [] => true
  | d :: ds => (nl && d == '\n') || stops.any (fun p => startsWithCI p (d :: ds))

/-- The lazy group `(.+?)` bounded by the lookahead: capture at least one
character, then extend one character at a time until the lookahead holds. -/
def lazyCap (nl : Bool) (stops : List (List Char)) : Char → List Char → List Char
  | c, [] => [c]
  | c, d :: ds => if stopHere nl stops (d :: ds) then [c] else c :: lazyCap nl stops d ds

/-- Match of `LABEL:\s*(.+?)(?=…)` just after the label, on remainder `r`.
`\s*` is greedy, so capture starts at the first non-whitespace character;
when `r` is nonempty but all whitespace the engine backtracks `\s*` by one
and captures that final whitespace character (the `$` alternative of the
lookahead always holds at the end); when `r` is empty the position fails. -/
def capAfter (nl : Bool) (stops : List (List Char)) (r : List Char) : Option (List Char) :=
  match r with
  | [] => none
  | _ :: _ =>
    match r.dropWhile jsWs with
    | [] => some [r.getLastD ' ']
    | c :: cs => some (lazyCap nl stops c cs)

/-- Leftmost match of a section regex `LABEL:\s*(.+?)(?=…)`. -/
def scanSection (label : List Char) (nl : Bool) (stops : List (List Char)) :
    List Char → Option (List Char)
  | [] => none
  | c :: cs =>
    if startsWithCI label (c :: cs) then
      match capAfter nl stops ((c :: cs).drop label.length) with
      | some cap => some cap
      | none => scanSection label nl stops cs
    else scanSection label nl stops cs

/-- Trailing-whitespace removal. -/
def trimEnd (l : List Char) : List Char := (l.reverse.dropWhile jsWs).reverse

/-- JavaScript `String.prototype.trim` (ASCII whitespace). -/
def trimBoth (l : List Char) : List Char := trimEnd (l.dropWhile jsWs)

/-- JavaScript `String.prototype.split(',')`: `''` splits to `['']`,
adjacent commas produce empty items. -/
def splitComma : List Char → List (List Char)
  | [] => [[]]
  | c :: cs =>
    if c == ',' then [] :: splitComma cs
    else
      match splitComma cs with
      | [] => [[c]]
      | h :: t => (c :: h) :: t

/-- `.split(',').map(s => s.trim()).filter(s => s.length > 0)` on a section
string, producing the strengths / weak-areas list. -/
def itemize (s : List Char) : List String :=
  (((splitComma s).map trimBoth).filter (fun x => x.length > 0)).map (fun l => String.mk l)

/-- The typed result of parsing a grading response (§3 "Graded Result"). -/
structure GradedResult where
  score : Nat
  feedback : String
  strengths : List String
  weakAreas : List String
  deriving DecidableEq, Repr

/-- `parseGradingResponse` of `assessmentService.js` (the `try` body, which
is total on strings: regex matching on a string cannot throw). -/
def parseGradingResponse (s : String) : GradedResult :=
  let cs := s.toList
  let score := (scanScore cs).getD 0
  let feedback :=
    match scanSection feedbackLabel true [strengthsLabel, weakAreasLabel] cs with
    | some cap => String.mk (trimBoth cap)
    | none => "No feedback available"
  let strengthsStr := ((scanSection strengthsLabel true [weakAreasLabel] cs).map trimBoth).getD []
  let weakAreasStr := ((scanSection weakAreasLabel false [] cs).map trimBoth).getD []
  { score := min 100 score
    feedback := feedback
    strengths := itemize strengthsStr
    weakAreas := itemize weakAreasStr }

/-- The hard default returned by the `catch` branch of
`parseGradingResponse`. -/
def parseFailureResult : GradedResult :=
  { score := 0
    feedback := "Unable to process assessment. Please try again."
    strengths := []
    weakAreas := ["Assessment parsing error"] }

/-- The full `parseGradingResponse` including its `catch`: a JavaScript call
whose matching step throws (the only possibility being a non-string
argument, modelled as `none`) lands in the `catch` branch and yields
`parseFailureResult`; every string input takes the `try` body. -/
def parseGradingSafe : Option String → GradedResult
  | some s => parseGradingResponse s
  | none => parseFailureResult

/-- Case-insensitive substring occurrence (used to state that a labeled
section is missing from a response). -/
def containsCI (p : List Char) : List Char → Bool
  | [] => startsWithCI p []
  | c :: cs => startsWithCI p (c :: cs) || containsCI p cs

/-! ### Character-level facts -/

/-- The "plain" characters allowed in the abstract section contents of the
well-formedness theorems: ASCII letters, space and comma. -/
def PlainChar (c : Char) : Prop :=
  (97 ≤ c.toNat ∧ c.toNat ≤ 122) ∨ (65 ≤ c.toNat ∧ c.toNat ≤ 90) ∨
    c.toNat = 32 ∨ c.toNat = 44

instance (c : Char) : Decidable (PlainChar c) := by
  unfold PlainChar
  infer_instance

/-! ### Matching facts -/

/-- Compatibility of a pattern with a prefix of the subject: if it already
fails on the overlapping part, no continuation can make the pattern match. -/
def compatCI : List Char → List Char → Bool
  | _, [] => true
  | [], _ => true
  | p :: ps, c :: cs => eqCI p c && compatCI ps cs

/-! ### Scanning facts -/

/-! ### Capture facts -/

/-- Shape of the stop labels used by the section lookaheads: some text
without newlines followed by a colon. -/
def StopShape (stop : List Char) : Prop :=
  ∃ p₁ p₂, stop = p₁ ++ ':' :: p₂ ∧ ∀ c ∈ p₁, (lowerC c).toNat ≠ 10

/-! ### Trim facts -/

/-! ### Evaluation of the scanners on a canonical well-formed response -/

/-- A canonical well-formed grading response: the four labeled sections in
order, one per line, a single space after each label. -/
def mkResponse (ds f st wk : List Char) : List Char :=
  scoreLabel ++ ' ' :: ds ++ slash100 ++ '\n' ::
    feedbackLabel ++ ' ' :: f ++ '\n' ::
      strengthsLabel ++ ' ' :: st ++ '\n' ::
        weakAreasLabel ++ ' ' :: wk

/-- Index of the first case-insensitive occurrence of `p`. -/
def firstIdxCI (p : List Char) : List Char → Option Nat
  | [] => if startsWithCI p [] then some 0 else none
  | c :: cs => if startsWithCI p (c :: cs) then some 0 else (firstIdxCI p cs).map (· + 1)

/-- Feedback extraction as the specification words it (§4.4 step 2): the
text following `FEEDBACK:` up to the next labeled section or the end of
text (trimmed); stated only for comparison with `parseGradingResponse`,
whose regex also stops at the first newline. -/
def specFeedbackText (s : List Char) : Option (List Char) :=
  (firstIdxCI feedbackLabel s).map fun i =>
    let after := s.drop (i + feedbackLabel.length)
    let stop := min ((firstIdxCI strengthsLabel after).getD after.length)
                    ((firstIdxCI weakAreasLabel after).getD after.length)
    trimBoth (after.take stop)

/-- A grading response whose feedback spans two lines before the next
labeled section. -/
def twoLineFeedbackResponse : String :=
  "SCORE: 85/100\nFEEDBACK: Good work.\nKeep going.\nSTRENGTHS: clarity, pace\nWEAK_AREAS: grammar"

/-! ## The persistence layer (`firebaseService.js`) -/

/-- The standardised result object `{success, data?, error?, code?}` used by
every service function. -/
inductive SRes (α : Type) where
  | ok (data : α)
  | err (code : String) (msg : String)
  deriving DecidableEq, Repr

/-- Observable trace of one `retryWithBackoff` run: the final result, the
number of attempts made, and the waits performed between attempts. -/
structure RetryTrace (ε α : Type) where
  result : Except ε α
  attempts : Nat
  waits : List Nat
  deriving Repr

/-- The body of the `retryWithBackoff` loop from attempt index `attempt`
with `remaining` retries left.  After a failed non-final attempt it waits
`delays[attempt] || delays[delays.length - 1]` (JavaScript `||`: an
out-of-range index — `undefined` — and a `0` delay both fall back to the
last entry). -/
def retryGo (outcomes : Nat → Except ε α) (delays : List Nat) (attempt : Nat) :
    Nat → RetryTrace ε α
  | 0 =>
    match outcomes attempt with
    | .ok a => ⟨.ok a, 1, []⟩
    | .error e => ⟨.error e, 1, []⟩
  | remaining + 1 =>
    match outcomes attempt with
    | .ok a => ⟨.ok a, 1, []⟩
    | .error _ =>
      let d :=
        match delays.get? attempt with
        | some v => if v = 0 then delays.getLastD 0 else v
        | none => delays.getLastD 0
      let rest := retryGo outcomes delays (attempt + 1) remaining
      ⟨rest.result, rest.attempts + 1, d :: rest.waits⟩

/-- `retryWithBackoff(fn, maxRetries = 3, delays = [100, 200, 400])`:
the loop `for (attempt = 0; attempt <= maxRetries; attempt++)` — one
initial attempt plus up to `maxRetries` retries; the `i`-th outcome of the
wrapped operation is `outcomes i`. -/
def retryWithBackoff (outcomes : Nat → Except ε α) (maxRetries : Nat)
    (delays : List Nat) : RetryTrace ε α :=
  retryGo outcomes delays 0 maxRetries

/-- The language codes accepted by the Joi schemas. -/
def supportedLanguages : List String := ["en", "es", "fr", "de"]

/-- A user document, as validated by `userSchema` (creation date and the
settings sub-object carry defaults and are irrelevant to every claim). -/
structure UserData where
  telegramId : String
  name : String
  targetLanguage : String
  nativeLanguage : String
  streak : Nat
  totalLessons : Nat
  avgScore : ℚ
  lessonDay : Nat
  deriving DecidableEq, Repr

/-- Joi `userSchema`: required nonempty strings, a supported language,
`avgScore` within [0,100], `lessonDay ≥ 1` (Joi rejects empty strings for
required string fields by default). -/
def userValid (u : UserData) : Prop :=
  u.telegramId ≠ "" ∧ u.name ≠ "" ∧ u.targetLanguage ∈ supportedLanguages ∧
    0 ≤ u.avgScore ∧ u.avgScore ≤ 100 ∧ 1 ≤ u.lessonDay

instance (u : UserData) : Decidable (userValid u) := by
  unfold userValid
  infer_instance

/-- An assessment document, as validated by `assessmentSchema`; the
timestamp is modelled as a calendar-day number (the streak logic reduces
every timestamp to its calendar date). -/
structure AssessmentData where
  userId : String
  lessonDay : Nat
  targetLanguage : String
  score : Nat
  transcript : String
  expectedAnswer : String
  feedback : String
  strengths : List String
  weakAreas : List String
  timestamp : Nat
  deriving DecidableEq, Repr

/-- Joi `assessmentSchema`: required nonempty strings, integer
`lessonDay ≥ 1`, supported language, `score` within [0,100] (`min(0)` is
vacuous for `Nat`). -/
def assessmentValid (a : AssessmentData) : Prop :=
  a.userId ≠ "" ∧ 1 ≤ a.lessonDay ∧ a.targetLanguage ∈ supportedLanguages ∧
    a.score ≤ 100 ∧ a.transcript ≠ "" ∧ a.expectedAnswer ≠ "" ∧ a.feedback ≠ ""

instance (a : AssessmentData) : Decidable (assessmentValid a) := by
  unfold assessmentValid
  infer_instance

/-- Stands for the dynamic Joi validation message (its exact text is
irrelevant to every claim). -/
def joiMessage : String := "validation failed"

/-- `upsertUser` of `firebaseService.js`: validate, then a retried
`set(..., {merge: true})` whose `i`-th outcome is `setOutcomes i`; a retry
exhaustion surfaces `ERR_DATABASE_ERROR`. -/
def upsertUser (u : UserData) (setOutcomes : Nat → Except Unit Unit) : SRes Unit :=
  if userValid u then
    match (retryWithBackoff setOutcomes 3 [100, 200, 400]).result with
    | .ok _ => .ok ()
    | .error _ => .err "ERR_DATABASE_ERROR" "Failed to save user data"
  else .err "ERR_INVALID_INPUT" joiMessage

/-- `storeAssessment` of `firebaseService.js`: validate, then a retried
`add` that yields the generated document id. -/
def storeAssessment (a : AssessmentData) (addOutcomes : Nat → Except Unit String) :
    SRes String :=
  if assessmentValid a then
    match (retryWithBackoff addOutcomes 3 [100, 200, 400]).result with
    | .ok id => .ok id
    | .error _ => .err "ERR_DATABASE_ERROR" "Failed to save assessment"
  else .err "ERR_INVALID_INPUT" joiMessage

/-- `updateUserStats` of `firebaseService.js`: a retried targeted field
update with no validation. -/
def updateUserStats (updateOutcomes : Nat → Except Unit Unit) : SRes Unit :=
  match (retryWithBackoff updateOutcomes 3 [100, 200, 400]).result with
  | .ok _ => .ok ()
  | .error _ => .err "ERR_DATABASE_ERROR" "Failed to update user statistics"

/-- `getUserAssessments` of `firebaseService.js`: a retried query ordered
by timestamp descending with a `limit`; `store` is the user's assessment
log, most recent first. -/
def getUserAssessments (store : List AssessmentData) (limit : Nat)
    (fetchOutcomes : Nat → Except Unit Unit) : SRes (List AssessmentData) :=
  match (retryWithBackoff fetchOutcomes 3 [100, 200, 400]).result with
  | .ok _ => .ok (store.take limit)
  | .error _ => .err "ERR_DATABASE_ERROR" "Failed to retrieve assessments"

/-- A valid assessment document used by several witnesses. -/
def sampleAssessment : AssessmentData :=
  { userId := "u1", lessonDay := 1, targetLanguage := "en", score := 85,
    transcript := "hello my name is Dana", expectedAnswer := "hello",
    feedback := "Great job", strengths := ["clarity", "pace"],
    weakAreas := ["grammar"], timestamp := 20000 }

/-- Concrete outcome sequence: failures on attempts 1 and 2, success on
attempt 3. -/
def thirdTimeLucky : Nat → Except Unit String
  | 0 => .error ()
  | 1 => .error ()
  | _ => .ok "doc1"

/-! ## The lesson catalog (`lessonService.js`) -/

/-- One vocabulary entry of a lesson (the source field `example` is a Lean
keyword, hence `exampleText`). -/
structure VocabWord where
  word : String
  translation : String
  exampleText : String
  deriving DecidableEq, Repr

/-- One lesson of the static catalog. -/
structure CatalogLesson where
  title : String
  words : List VocabWord
  quizPrompt : String
  deriving DecidableEq, Repr

/-- One language entry of `config/languages.js`: metadata plus the lessons
keyed by day. -/
structure LangEntry where
  name : String
  flag : String
  nativeLanguage : String
  lessons : List (Nat × CatalogLesson)
  deriving DecidableEq, Repr

/-- The object returned by a successful `getLesson`:
`{...lesson, languageName, languageFlag, nativeLanguage}`. -/
structure LessonOut where
  title : String
  words : List VocabWord
  quizPrompt : String
  languageName : String
  languageFlag : String
  nativeLanguage : String
  deriving DecidableEq, Repr

/-- `getLesson` of `lessonService.js`, over an explicit catalog (the data
file `config/languages.js` is external static data; a missing or falsy
entry is a lookup miss). -/
def getLesson (languages : List (String × LangEntry)) (languageCode : String)
    (lessonDay : Nat) : SRes LessonOut :=
  match languages.lookup languageCode with
  | none => .err "ERR_INVALID_INPUT" ("Language '" ++ languageCode ++ "' is not supported")
  | some language =>
    match language.lessons.lookup lessonDay with
    | none =>
      .err "ERR_LESSON_NOT_FOUND"
        ("Lesson " ++ toString lessonDay ++ " not available for " ++ language.name)
    | some lesson =>
      if lesson.words.length ≠ 5 then
        .err "ERR_LESSON_NOT_FOUND" "Lesson content is malformed"
      else
        .ok { title := lesson.title, words := lesson.words, quizPrompt := lesson.quizPrompt,
              languageName := language.name, languageFlag := language.flag,
              nativeLanguage := language.nativeLanguage }

/-- The error code of a result, the machine-readable `errorKind`. -/
def SRes.errCode : SRes α → Option String
  | .ok _ => none
  | .err c _ => some c

/-- A four-word (malformed) lesson. -/
def fourWordLesson : CatalogLesson :=
  { title := "Greetings", quizPrompt := "Introduce yourself",
    words := [⟨"hello", "shalom", "hello there"⟩, ⟨"bye", "lehit", "bye now"⟩,
      ⟨"yes", "ken", "yes please"⟩, ⟨"no", "lo", "no thanks"⟩] }

/-- A well-formed five-word lesson. -/
def fiveWordLesson : CatalogLesson :=
  { title := "Basics", quizPrompt := "Use every word",
    words := [⟨"one", "ahat", "one day"⟩, ⟨"two", "shtaim", "two days"⟩,
      ⟨"three", "shalosh", "three days"⟩, ⟨"four", "arba", "four days"⟩,
      ⟨"five", "hamesh", "five days"⟩] }

/-- A small concrete catalog: English with a malformed day 1 and a
well-formed day 2. -/
def sampleCatalog : List (String × LangEntry) :=
  [("en", { name := "English", flag := "GB", nativeLanguage := "he",
            lessons := [(1, fourWordLesson), (2, fiveWordLesson)] })]

/-! ## The streak calculator (`calculateStreak` of `assessmentService.js`)

Timestamps are reduced by the source to calendar-date strings
(`toISOString().split('T')[0]`); lexicographic order on these fixed-width
strings is calendar order, so dates are modelled as day numbers. -/

/-- The counting loop: starting from 1, walk the descending date list and
add one while each successive pair differs by exactly one day, stopping at
the first gap.  (The input is strictly descending, so truncated `Nat`
subtraction agrees with the source's timestamp arithmetic.) -/
def streakCount : List Nat → Nat
  | a :: b :: rest => if a - b = 1 then streakCount (b :: rest) + 1 else 1
  | _ => 1

/-- `Array.from(uniqueDates).sort().reverse()`: the distinct dates in
strictly descending order. -/
def sortedDescDedup (l : List Nat) : List Nat :=
  (l.dedup).insertionSort (· ≥ ·)

/-- `calculateStreak(userId, newAssessmentDate)`: fetch the 100 most recent
assessments (`store` is the full log, most recent first; `fetchOk` is the
fetch outcome — a failed or empty fetch yields 1), collect their distinct
dates plus the new assessment's date, sort descending, and count. -/
def calculateStreak (fetchOk : Bool) (store : List Nat) (asOf : Nat) : Nat :=
  if !fetchOk || (store.take 100).isEmpty then 1
  else streakCount (sortedDescDedup (asOf :: store.take 100))

/-- `computeStreak` as the specification words it (§4.6): the distinct
calendar dates of ALL prior assessments plus `asOfDate`, sorted descending,
counted back to the first gap; stated for comparison with
`calculateStreak`, which only sees the 100 most recent assessments. -/
def specComputeStreak (store : List Nat) (asOf : Nat) : Nat :=
  streakCount (sortedDescDedup (asOf :: store))

/-- The descending run `a, a-1, …, a-m+1`. -/
def descRun (a m : Nat) : List Nat := (List.range m).map (a - ·)

/-! ## The average-score recompute (step 5 of `assessVoice`) -/

/-- JavaScript `Math.round`: round half toward positive infinity. -/
def jsRound (q : ℚ) : ℤ := ⌊q + 1 / 2⌋

/-- `Math.round(x * 10) / 10`: rounding to one decimal place. -/
def round1 (q : ℚ) : ℚ := (jsRound (q * 10) : ℚ) / 10

/-- The `avgScore` written by step 5 of `assessVoice`: refetch the history
with `getUserAssessments(userId)` — default limit 50 — and write the mean
of the fetched scores rounded to one decimal.  `scores` is the full log,
most recent first, including the just-stored record; the source reads no
previously stored average. -/
def recomputedAvg (scores : List ℚ) : ℚ :=
  round1 ((scores.take 50).sum / ((scores.take 50).length : ℚ))

/-- The arithmetic mean of ALL stored scores, as the §3 invariant words
it; stated for comparison with `recomputedAvg`. -/
def specMeanScore (scores : List ℚ) : ℚ := scores.sum / (scores.length : ℚ)

/-! ## Transcription and grading clients (`openaiService.js`) -/

/-- `retryOnce(fn, delay = 1000)`: run the call; on an exception wait the
fixed delay and run it exactly once more, propagating the second outcome.
Returns the result and the number of remote calls made. -/
def retryOnce (outcomes : Nat → Except Unit α) : Except Unit α × Nat :=
  match outcomes 0 with
  | .ok a => (.ok a, 1)
  | .error _ => (outcomes 1, 2)

/-- `transcribeAudio` of `openaiService.js`: a zero-length buffer fails
before any remote call; otherwise the remote transcription is retried once
and a second failure surfaces `ERR_TRANSCRIPTION_FAILED`.  The second
component counts outbound remote calls. -/
def transcribeAudio (audioLen : Nat) (remote : Nat → Except Unit String) :
    SRes String × Nat :=
  if audioLen = 0 then (.err "ERR_INVALID_INPUT" "Audio buffer is empty", 0)
  else
    match retryOnce remote with
    | (.ok t, n) => (.ok t, n)
    | (.error _, n) => (.err "ERR_TRANSCRIPTION_FAILED" "Audio transcription failed", n)

/-- `gradeTranscript` of `openaiService.js`: the remote chat completion is
retried once; a second failure surfaces `ERR_GRADING_FAILED`. -/
def gradeTranscript (remote : Nat → Except Unit String) : SRes String × Nat :=
  match retryOnce remote with
  | (.ok r, n) => (.ok r, n)
  | (.error _, n) => (.err "ERR_GRADING_FAILED" "Grading failed", n)

/-! ## The orchestrator (`assessVoice` of `assessmentService.js`) -/

/-- The caller-supplied parameters of `assessVoice`; only the audio
buffer's length is observable by the pipeline's control flow. -/
structure AssessParams where
  userId : String
  lessonDay : Nat
  targetLanguage : String
  audioLen : Nat
  lessonWords : List VocabWord
  expectedAnswer : String
  nativeLanguage : Option String
  deriving DecidableEq, Repr

/-- Joi `assessmentParamsSchema`: nonempty identity, `lessonDay ≥ 1`, a
supported language, at least one lesson word with nonempty fields, a
nonempty expected answer; `audioBuffer` is only required to be present, so
a zero-length buffer passes validation. -/
def paramsValid (p : AssessParams) : Prop :=
  p.userId ≠ "" ∧ 1 ≤ p.lessonDay ∧ p.targetLanguage ∈ supportedLanguages ∧
    p.lessonWords ≠ [] ∧
    (∀ w ∈ p.lessonWords, w.word ≠ "" ∧ w.translation ≠ "" ∧ w.exampleText ≠ "") ∧
    p.expectedAnswer ≠ "" ∧ p.nativeLanguage ≠ some ""

instance (p : AssessParams) : Decidable (paramsValid p) := by
  unfold paramsValid
  infer_instance

/-- The collaborators and store state one `assessVoice` call runs against.
`priorStore` is the already-persisted assessment log, most recent first;
`avgFetchOk` and `streakFetchOk` are the outcomes of the two history reads
of step 5; the outcome of the stats write is ignored by the source. -/
structure AssessEnv where
  transcribeRemote : Nat → Except Unit String
  gradeRemote : Nat → Except Unit String
  addOutcomes : Nat → Except Unit String
  priorStore : List AssessmentData
  avgFetchOk : Bool
  streakFetchOk : Bool
  updateOutcomes : Nat → Except Unit Unit
  today : Nat

/-- The observable side effects of one `assessVoice` call: how many remote
transcription and grading calls were made, which assessment records were
durably written, and which `(avgScore, streak)` stats writes were issued. -/
structure AssessTrace where
  transcribeCalls : Nat
  gradeCalls : Nat
  storedRecords : List AssessmentData
  statsWrites : List (ℚ × Nat)
  deriving Repr

/-- The success payload of `assessVoice`. -/
structure AssessSuccess where
  assessmentId : String
  score : Nat
  transcript : String
  feedback : String
  strengths : List String
  weakAreas : List String
  deriving DecidableEq, Repr

/-- `assessVoice`: validate → transcribe → grade → parse → store → best-
effort stats recompute → success payload.  Each failing step short-circuits
with its own error; a failed history read skips the stats update; the
stats-write outcome (`env.updateOutcomes`) is awaited but ignored. -/
def assessVoice (p : AssessParams) (env : AssessEnv) : SRes AssessSuccess × AssessTrace :=
  if paramsValid p then
    match transcribeAudio p.audioLen env.transcribeRemote with
    | (.err c m, n1) => (.err c m, ⟨n1, 0, [], []⟩)
    | (.ok transcript, n1) =>
      match gradeTranscript env.gradeRemote with
      | (.err c m, n2) => (.err c m, ⟨n1, n2, [], []⟩)
      | (.ok raw, n2) =>
        let g := parseGradingResponse raw
        let record : AssessmentData :=
          { userId := p.userId, lessonDay := p.lessonDay,
            targetLanguage := p.targetLanguage, score := g.score,
            transcript := transcript, expectedAnswer := p.expectedAnswer,
            feedback := g.feedback, strengths := g.strengths,
            weakAreas := g.weakAreas, timestamp := env.today }
        match storeAssessment record env.addOutcomes with
        | .err c m => (.err c m, ⟨n1, n2, [], []⟩)
        | .ok assessmentId =>
          let newStore := record :: env.priorStore
          let statsWrites :=
            if env.avgFetchOk then
              [(recomputedAvg (newStore.map (fun a => (a.score : ℚ))),
                calculateStreak env.streakFetchOk (newStore.map (fun a => a.timestamp))
                  env.today)]
            else []
          (.ok { assessmentId := assessmentId, score := g.score,
                 transcript := transcript, feedback := g.feedback,
                 strengths := g.strengths, weakAreas := g.weakAreas },
           ⟨n1, n2, [record], statsWrites⟩)
  else (.err "ERR_INVALID_INPUT" joiMessage, ⟨0, 0, [], []⟩)

/-- Parameters used by the pipeline witnesses. -/
def sampleParams : AssessParams :=
  { userId := "u1", lessonDay := 1, targetLanguage := "en", audioLen := 4,
    lessonWords := [⟨"hello", "shalom", "hello there"⟩], expectedAnswer := "hello",
    nativeLanguage := none }

/-- An environment whose every collaborator call fails. -/
def offlineEnv : AssessEnv :=
  { transcribeRemote := fun _ => .error (), gradeRemote := fun _ => .error (),
    addOutcomes := fun _ => .error (), priorStore := [], avgFetchOk := true,
    streakFetchOk := true, updateOutcomes := fun _ => .error (), today := 20000 }

/-- An environment on the happy path, except that the step-5 history read
fails. -/
def happyEnv : AssessEnv :=
  { transcribeRemote := fun _ => .ok "hello my name is Dana",
    gradeRemote := fun _ =>
      .ok "SCORE: 85/100\nFEEDBACK: Great job!\nSTRENGTHS: clarity, pace\nWEAK_AREAS: grammar",
    addOutcomes := fun _ => .ok "doc9", priorStore := [], avgFetchOk := false,
    streakFetchOk := true, updateOutcomes := fun _ => .ok (), today := 20000 }

/-! ## Theorems -/

theorem toNat_ofNatAux (n : Nat) (h : n.isValidChar) : (Char.ofNatAux n h).toNat = n := rfl

theorem lowerC_toNat (c : Char) :
    (lowerC c).toNat = if 65 ≤ c.toNat ∧ c.toNat ≤ 90 then c.toNat + 32 else c.toNat := by
  simp only [lowerC, Char.toLower, Char.ofNat, ge_iff_le]
  by_cases h : 65 ≤ c.toNat ∧ c.toNat ≤ 90
  · have hv : (c.toNat + 32).isValidChar := by
      left
      have := h.2
      omega
    rw [if_pos h, if_pos h, dif_pos hv, toNat_ofNatAux]
  · rw [if_neg h, if_neg h]

theorem char_eq_of_toNat_eq {a b : Char} (h : a.toNat = b.toNat) : a = b := by
  apply Char.ext
  exact UInt32.toNat.inj h

theorem char_beq_false_of_toNat_ne {a b : Char} (h : a.toNat ≠ b.toNat) : (a == b) = false := by
  rw [beq_eq_false_iff_ne]
  intro hab
  exact h (congrArg Char.toNat hab)

theorem eqCI_refl (c : Char) : eqCI c c = true := by
  simp [eqCI]

theorem eqCI_false_of_toNat_ne {p c : Char} (h : (lowerC p).toNat ≠ (lowerC c).toNat) :
    eqCI p c = false :=
  char_beq_false_of_toNat_ne h

theorem PlainChar.lower_range {c : Char} (h : PlainChar c) :
    (97 ≤ (lowerC c).toNat ∧ (lowerC c).toNat ≤ 122) ∨
      (lowerC c).toNat = 32 ∨ (lowerC c).toNat = 44 := by
  rw [lowerC_toNat]
  rcases h with h | h | h | h <;> split <;> omega

theorem PlainChar.toNat_range {c : Char} (h : PlainChar c) : 32 ≤ c.toNat ∧ c.toNat ≤ 122 := by
  rcases h with h | h | h | h <;> omega

theorem PlainChar.ne_newline {c : Char} (h : PlainChar c) : (c == '\n') = false := by
  have hr := h.toNat_range
  exact char_beq_false_of_toNat_ne (show c.toNat ≠ 10 by omega)

theorem PlainChar.jsWs_eq_false {c : Char} (h : PlainChar c) (hs : c.toNat ≠ 32) :
    jsWs c = false := by
  have hr := h.toNat_range
  simp only [jsWs, Bool.or_eq_false_iff]
  refine ⟨⟨⟨⟨⟨?_, ?_⟩, ?_⟩, ?_⟩, ?_⟩, ?_⟩
  · exact char_beq_false_of_toNat_ne (show c.toNat ≠ 32 from hs)
  · exact char_beq_false_of_toNat_ne (show c.toNat ≠ 9 by omega)
  · exact char_beq_false_of_toNat_ne (show c.toNat ≠ 10 by omega)
  · exact char_beq_false_of_toNat_ne (show c.toNat ≠ 13 by omega)
  · exact char_beq_false_of_toNat_ne (show c.toNat ≠ 11 by omega)
  · exact char_beq_false_of_toNat_ne (show c.toNat ≠ 12 by omega)

theorem isDigit_toNat_range {c : Char} (h : Char.isDigit c = true) :
    48 ≤ c.toNat ∧ c.toNat ≤ 57 := by
  unfold Char.isDigit at h
  rw [Bool.and_eq_true, decide_eq_true_eq, decide_eq_true_eq] at h
  exact ⟨h.1, h.2⟩

theorem isDigit_lower_toNat {c : Char} (h : Char.isDigit c = true) :
    (lowerC c).toNat = c.toNat := by
  have := isDigit_toNat_range h
  rw [lowerC_toNat, if_neg]
  omega

theorem isDigit_jsWs_false {c : Char} (h : Char.isDigit c = true) : jsWs c = false := by
  have hr := isDigit_toNat_range h
  simp only [jsWs, Bool.or_eq_false_iff]
  refine ⟨⟨⟨⟨⟨?_, ?_⟩, ?_⟩, ?_⟩, ?_⟩, ?_⟩
  · exact char_beq_false_of_toNat_ne (show c.toNat ≠ 32 by omega)
  · exact char_beq_false_of_toNat_ne (show c.toNat ≠ 9 by omega)
  · exact char_beq_false_of_toNat_ne (show c.toNat ≠ 10 by omega)
  · exact char_beq_false_of_toNat_ne (show c.toNat ≠ 13 by omega)
  · exact char_beq_false_of_toNat_ne (show c.toNat ≠ 11 by omega)
  · exact char_beq_false_of_toNat_ne (show c.toNat ≠ 12 by omega)

theorem startsWithCI_self_append (p r : List Char) : startsWithCI p (p ++ r) = true := by
  induction p with
  | nil => rfl
  | cons c cs ih => simp [startsWithCI, eqCI_refl, ih]

theorem startsWithCI_append_false {p a : List Char} (h : compatCI p a = false)
    (r : List Char) : startsWithCI p (a ++ r) = false := by
  induction p generalizing a with
  | nil => cases a <;> simp [compatCI] at h
  | cons x xs ih =>
    cases a with
    | nil => simp [compatCI] at h
    | cons c cs =>
      simp only [compatCI, Bool.and_eq_false_iff] at h
      rcases h with h | h
      · simp [startsWithCI, h]
      · simp [startsWithCI, ih h]

/-- A label of shape `p₁ ++ ':' :: p₂` (with no newline in `p₁`) cannot
match, case-insensitively, at any position of a plain-character region that
is followed by a newline: the `':'` of the label would have to fall on a
plain character or on the newline. -/
theorem startsWithCI_colonLabel_false (p₁ p₂ f₁ rest : List Char)
    (hp : ∀ c ∈ p₁, (lowerC c).toNat ≠ 10)
    (hf : ∀ c ∈ f₁, PlainChar c) :
    startsWithCI (p₁ ++ ':' :: p₂) (f₁ ++ '\n' :: rest) = false := by
  induction p₁ generalizing f₁ with
  | nil =>
    cases f₁ with
    | nil =>
      simp only [List.nil_append, startsWithCI, Bool.and_eq_false_iff]
      left
      exact eqCI_false_of_toNat_ne (by decide)
    | cons c cs =>
      simp only [List.nil_append, List.cons_append, startsWithCI, Bool.and_eq_false_iff]
      left
      apply eqCI_false_of_toNat_ne
      have hc := (hf c (by simp)).lower_range
      intro he
      rw [show (lowerC ':').toNat = 58 from rfl] at he
      omega
  | cons x xs ih =>
    cases f₁ with
    | nil =>
      simp only [List.nil_append, List.cons_append, startsWithCI, Bool.and_eq_false_iff]
      left
      apply eqCI_false_of_toNat_ne
      rw [show (lowerC '\n').toNat = 10 from rfl]
      exact hp x (by simp)
    | cons c cs =>
      simp only [List.cons_append, startsWithCI, Bool.and_eq_false_iff]
      by_cases he : eqCI x c = true
      · right
        exact ih cs (fun d hd => hp d (List.mem_cons_of_mem _ hd))
          (fun d hd => hf d (List.mem_cons_of_mem _ hd))
      · left
        simpa using he

theorem scanSection_nil (label : List Char) (nl : Bool) (stops : List (List Char)) :
    scanSection label nl stops [] = none := rfl

theorem scanSection_cons_false {label : List Char} {c : Char} {cs : List Char}
    (nl : Bool) (stops : List (List Char)) (h : startsWithCI label (c :: cs) = false) :
    scanSection label nl stops (c :: cs) = scanSection label nl stops cs := by
  simp [scanSection, h]

/-- Skip a concrete skeleton region: no tail of `skel` is compatible with
the label, so the leftmost match lies beyond `skel`. -/
theorem scanSection_skip_compat (label : List Char) (nl : Bool) (stops : List (List Char))
    (skel : List Char) (h : ∀ t ∈ skel.tails, t ≠ [] → compatCI label t = false)
    (rest : List Char) :
    scanSection label nl stops (skel ++ rest) = scanSection label nl stops rest := by
  induction skel with
  | nil => rfl
  | cons c cs ih =>
    have h1 : startsWithCI label (c :: (cs ++ rest)) = false := by
      simpa using
        startsWithCI_append_false (h (c :: cs) (by simp [List.tails]) (by simp)) rest
    rw [List.cons_append, scanSection_cons_false nl stops h1]
    exact ih fun t ht hne => h t (by simp [List.tails, ht]) hne

/-- Skip a region in which every character fails against the label head. -/
theorem scanSection_skip_heads (lh : Char) (lt : List Char) (nl : Bool)
    (stops : List (List Char)) (g : List Char)
    (hg : ∀ c ∈ g, eqCI lh c = false) (rest : List Char) :
    scanSection (lh :: lt) nl stops (g ++ rest) = scanSection (lh :: lt) nl stops rest := by
  induction g with
  | nil => rfl
  | cons c cs ih =>
    rw [List.cons_append, scanSection_cons_false nl stops
      (by simp [startsWithCI, hg c (by simp)])]
    exact ih fun d hd => hg d (by simp [hd])

/-- Skip a plain-character region followed by a newline, for a label of
colon shape. -/
theorem scanSection_skip_plain (p₁ p₂ : List Char) (nl : Bool) (stops : List (List Char))
    (f₁ rest : List Char)
    (hp : ∀ c ∈ p₁, (lowerC c).toNat ≠ 10)
    (hf : ∀ c ∈ f₁, PlainChar c) :
    scanSection (p₁ ++ ':' :: p₂) nl stops (f₁ ++ '\n' :: rest) =
      scanSection (p₁ ++ ':' :: p₂) nl stops ('\n' :: rest) := by
  induction f₁ with
  | nil => rfl
  | cons c cs ih =>
    have h1 : startsWithCI (p₁ ++ ':' :: p₂) (c :: (cs ++ '\n' :: rest)) = false := by
      simpa using startsWithCI_colonLabel_false p₁ p₂ (c :: cs) rest hp hf
    rw [List.cons_append, scanSection_cons_false nl stops h1]
    exact ih fun d hd => hf d (List.mem_cons_of_mem _ hd)

theorem scanScore_cons_false {c : Char} {cs : List Char}
    (h : startsWithCI scoreLabel (c :: cs) = false) :
    scanScore (c :: cs) = scanScore cs := by
  simp [scanScore, scoreAt, h]

/-- If a label occurs nowhere (case-insensitively), its section regex does
not match. -/
theorem scanSection_eq_none (label : List Char) (nl : Bool) (stops : List (List Char))
    (s : List Char) (h : containsCI label s = false) :
    scanSection label nl stops s = none := by
  induction s with
  | nil => rfl
  | cons c cs ih =>
    simp only [containsCI, Bool.or_eq_false_iff] at h
    rw [scanSection_cons_false nl stops h.1]
    exact ih h.2

/-- If `SCORE:` occurs nowhere, the score regex does not match. -/
theorem scanScore_eq_none (s : List Char) (h : containsCI scoreLabel s = false) :
    scanScore s = none := by
  induction s with
  | nil => rfl
  | cons c cs ih =>
    simp only [containsCI, Bool.or_eq_false_iff] at h
    rw [scanScore_cons_false h.1]
    exact ih h.2

theorem stopHere_plain_false (nl : Bool) (stops : List (List Char))
    (hstops : ∀ stop ∈ stops, StopShape stop) (c : Char) (hc : PlainChar c)
    (cs : List Char) (hcs : ∀ d ∈ cs, PlainChar d) (rest : List Char) :
    stopHere nl stops (c :: (cs ++ '\n' :: rest)) = false := by
  have h2 : ∀ stop ∈ stops, startsWithCI stop (c :: (cs ++ '\n' :: rest)) = false := by
    intro stop hs
    obtain ⟨p₁, p₂, hform, hp⟩ := hstops stop hs
    rw [hform]
    simpa using startsWithCI_colonLabel_false p₁ p₂ (c :: cs) rest hp
      (by
        intro d hd
        rcases List.mem_cons.mp hd with h | h
        · exact h ▸ hc
        · exact hcs d h)
  simp only [stopHere, hc.ne_newline, Bool.and_false, Bool.false_or, List.any_eq_false]
  intro stop hs
  exact Bool.eq_false_iff.mp (h2 stop hs) ∘ fun h => h

theorem lazyCap_plain (stops : List (List Char)) (hstops : ∀ s ∈ stops, StopShape s)
    (ft : List Char) (hft : ∀ d ∈ ft, PlainChar d) (c : Char) (rest : List Char) :
    lazyCap true stops c (ft ++ '\n' :: rest) = c :: ft := by
  induction ft generalizing c with
  | nil => simp [lazyCap, stopHere]
  | cons d ds ih =>
    have hs : stopHere true stops (d :: (ds ++ '\n' :: rest)) = false :=
      stopHere_plain_false true stops hstops d (hft d (by simp)) ds
        (fun e he => hft e (List.mem_cons_of_mem _ he)) rest
    simp only [List.cons_append, lazyCap, List.append_eq, hs, Bool.false_eq_true, if_false]
    rw [ih fun e he => hft e (List.mem_cons_of_mem _ he)]

theorem lazyCap_no_stops (c : Char) (l : List Char) : lazyCap false [] c l = c :: l := by
  induction l generalizing c with
  | nil => rfl
  | cons d ds ih => simp [lazyCap, stopHere, ih]

theorem capAfter_space (nl : Bool) (stops : List (List Char)) (c : Char) (t : List Char)
    (hc : jsWs c = false) :
    capAfter nl stops (' ' :: c :: t) = some (lazyCap nl stops c t) := by
  simp [capAfter, List.dropWhile_cons, hc, show jsWs ' ' = true from rfl]

theorem capAfter_ne_nil (nl : Bool) (stops : List (List Char)) (r : List Char)
    (hr : r ≠ []) : ∃ cap, capAfter nl stops r = some cap := by
  cases r with
  | nil => exact absurd rfl hr
  | cons a as =>
    simp only [capAfter]
    cases (a :: as).dropWhile jsWs with
    | nil => exact ⟨_, rfl⟩
    | cons b bs => exact ⟨_, rfl⟩

theorem scanSection_self (l : Char) (lt : List Char) (nl : Bool) (stops : List (List Char))
    (r : List Char) (hr : r ≠ []) :
    scanSection (l :: lt) nl stops ((l :: lt) ++ r) = capAfter nl stops r := by
  have h1 : startsWithCI (l :: lt) ((l :: lt) ++ r) = true := startsWithCI_self_append _ _
  have h2 : ((l :: lt) ++ r).drop (l :: lt).length = r := List.drop_left _ _
  obtain ⟨cap, hcap⟩ := capAfter_ne_nil nl stops r hr
  rw [List.cons_append] at h1 h2 ⊢
  simp only [scanSection, h1, if_true]
  rw [h2, hcap]

theorem trimEnd_concat (xs : List Char) (x : Char) (hx : jsWs x = false) :
    trimEnd (xs ++ [x]) = xs ++ [x] := by
  simp [trimEnd, List.reverse_append, List.dropWhile_cons, hx]

theorem trimBoth_eq_self (c : Char) (t : List Char) (hc : jsWs c = false)
    (hlast : jsWs ((c :: t).getLast (by simp)) = false) : trimBoth (c :: t) = c :: t := by
  unfold trimBoth
  rw [List.dropWhile_cons, if_neg (by simp [hc])]
  conv_lhs => rw [← List.dropLast_append_getLast (l := c :: t) (by simp)]
  rw [trimEnd_concat _ _ hlast]
  exact List.dropLast_append_getLast _

theorem PlainChar.jsWs_false_of_ne_space {c : Char} (h : PlainChar c) (hs : c ≠ ' ') :
    jsWs c = false :=
  h.jsWs_eq_false fun h32 => hs (char_eq_of_toNat_eq (by rw [h32]; rfl))

theorem stopShape_strengths : StopShape strengthsLabel :=
  ⟨['S', 'T', 'R', 'E', 'N', 'G', 'T', 'H', 'S'], [], rfl, by decide⟩

theorem stopShape_weakAreas : StopShape weakAreasLabel :=
  ⟨['W', 'E', 'A', 'K', '_', 'A', 'R', 'E', 'A', 'S'], [], rfl, by decide⟩

theorem eqCI_false_of_digit {p c : Char} (hp : 65 ≤ (lowerC p).toNat)
    (hc : Char.isDigit c = true) : eqCI p c = false := by
  apply eqCI_false_of_toNat_ne
  rw [isDigit_lower_toNat hc]
  have := isDigit_toNat_range hc
  omega

theorem takeWhile_digits (a : List Char) (h : ∀ c ∈ a, Char.isDigit c = true)
    (x : Char) (hx : Char.isDigit x = false) (r : List Char) :
    List.takeWhile Char.isDigit (a ++ x :: r) = a := by
  induction a with
  | nil => simp [List.takeWhile_cons, hx]
  | cons c cs ih =>
    rw [List.cons_append, List.takeWhile_cons, if_pos (by simp [h c (by simp)])]
    rw [ih fun d hd => h d (List.mem_cons_of_mem _ hd)]

theorem scoreTail_digits (ds : List Char) (hds : ds ≠ [])
    (hdig : ∀ c ∈ ds, Char.isDigit c = true) (T : List Char) :
    scoreTail (ds ++ '/' :: '1' :: '0' :: '0' :: T) = some (digitsToNat ds) := by
  have ht : List.takeWhile Char.isDigit (ds ++ '/' :: '1' :: '0' :: '0' :: T) = ds :=
    takeWhile_digits _ hdig _ (by decide) _
  unfold scoreTail
  rw [ht, if_neg (by simp [hds]), List.drop_left]
  rw [if_pos (show startsWithCI slash100 ('/' :: '1' :: '0' :: '0' :: T) = true from
    startsWithCI_self_append slash100 T)]

theorem scanScore_of_scoreAt {s : List Char} {n : Nat} (hne : s ≠ [])
    (h : scoreAt s = some n) : scanScore s = some n := by
  cases s with
  | nil => exact absurd rfl hne
  | cons c cs => simp [scanScore, h]

theorem scanScore_mkResponse (ds f st wk : List Char) (hds : ds ≠ [])
    (hdig : ∀ c ∈ ds, Char.isDigit c = true) :
    scanScore (mkResponse ds f st wk) = some (digitsToNat ds) := by
  obtain ⟨d, ds', rfl⟩ := List.exists_cons_of_ne_nil hds
  have hjd : jsWs d = false := isDigit_jsWs_false (hdig d (by simp))
  apply scanScore_of_scoreAt (by simp [mkResponse, scoreLabel])
  unfold scoreAt
  rw [if_pos (show startsWithCI scoreLabel (mkResponse (d :: ds') f st wk) = true from
    startsWithCI_self_append _ _)]
  have hdrop :
      (mkResponse (d :: ds') f st wk).drop scoreLabel.length =
        ' ' :: ((d :: ds') ++ '/' :: '1' :: '0' :: '0' :: ('\n' ::
          feedbackLabel ++ ' ' :: f ++ '\n' ::
            strengthsLabel ++ ' ' :: st ++ '\n' ::
              weakAreasLabel ++ ' ' :: wk)) := by
    show (scoreLabel ++ _).drop scoreLabel.length = _
    rw [List.drop_left]
    simp [slash100, List.append_assoc]
  rw [hdrop]
  rw [List.dropWhile_cons, if_pos (show jsWs ' ' = true from rfl)]
  rw [List.cons_append, List.dropWhile_cons, if_neg (by simp [hjd])]
  exact scoreTail_digits (d :: ds') (by simp) hdig _

theorem scanSection_self' (label : List Char) (hl : label ≠ []) (nl : Bool)
    (stops : List (List Char)) (r : List Char) (hr : r ≠ []) :
    scanSection label nl stops (label ++ r) = capAfter nl stops r := by
  cases label with
  | nil => exact absurd rfl hl
  | cons l lt => exact scanSection_self l lt nl stops r hr

theorem scanSection_skip_heads' (label : List Char) (hl : label ≠ []) (nl : Bool)
    (stops : List (List Char)) (g : List Char)
    (hg : ∀ c ∈ g, eqCI (label.head hl) c = false) (rest : List Char) :
    scanSection label nl stops (g ++ rest) = scanSection label nl stops rest := by
  cases label with
  | nil => exact absurd rfl hl
  | cons l lt => exact scanSection_skip_heads l lt nl stops g hg rest

theorem scanSection_skip_one (label : List Char) (hl : label ≠ []) (nl : Bool)
    (stops : List (List Char)) (c : Char) (hc : eqCI (label.head hl) c = false)
    (rest : List Char) :
    scanSection label nl stops (c :: rest) = scanSection label nl stops rest := by
  cases label with
  | nil => exact absurd rfl hl
  | cons l lt =>
    have hc' : eqCI l c = false := hc
    exact scanSection_cons_false nl stops (by simp [startsWithCI, hc'])

theorem scanSection_skip_plain' (label p₁ p₂ : List Char) (hshape : label = p₁ ++ ':' :: p₂)
    (nl : Bool) (stops : List (List Char)) (f₁ rest : List Char)
    (hp : ∀ c ∈ p₁, (lowerC c).toNat ≠ 10) (hf : ∀ c ∈ f₁, PlainChar c) :
    scanSection label nl stops (f₁ ++ '\n' :: rest) =
      scanSection label nl stops ('\n' :: rest) := by
  subst hshape
  exact scanSection_skip_plain p₁ p₂ nl stops f₁ rest hp hf

theorem scanFeedback_mkResponse (ds f st wk : List Char)
    (hdig : ∀ c ∈ ds, Char.isDigit c = true)
    (hf : ∀ c ∈ f, PlainChar c) (hfne : f ≠ []) (hfh : f.head hfne ≠ ' ') :
    scanSection feedbackLabel true [strengthsLabel, weakAreasLabel]
      (mkResponse ds f st wk) = some f := by
  obtain ⟨fh, ft, rfl⟩ := List.exists_cons_of_ne_nil hfne
  have hstops : ∀ s ∈ [strengthsLabel, weakAreasLabel], StopShape s := by
    intro s hs
    simp only [List.mem_cons, List.not_mem_nil, or_false] at hs
    rcases hs with rfl | rfl
    · exact stopShape_strengths
    · exact stopShape_weakAreas
  have hjfh : jsWs fh = false :=
    (hf fh (by simp)).jsWs_false_of_ne_space (by simpa using hfh)
  have e1 : mkResponse ds (fh :: ft) st wk =
      (scoreLabel ++ [' ']) ++ (ds ++ ((slash100 ++ ['\n']) ++
        (feedbackLabel ++ (' ' :: ((fh :: ft) ++ ('\n' ::
          (strengthsLabel ++ ' ' :: st ++ '\n' :: weakAreasLabel ++ ' ' :: wk))))))) := by
    simp [mkResponse, List.append_assoc]
  rw [e1]
  rw [scanSection_skip_compat feedbackLabel true _ (scoreLabel ++ [' ']) (by decide) _]
  rw [scanSection_skip_heads' feedbackLabel (by decide) true _ ds
    (fun c hc => eqCI_false_of_digit (by decide) (hdig c hc)) _]
  rw [scanSection_skip_compat feedbackLabel true _ (slash100 ++ ['\n']) (by decide) _]
  rw [scanSection_self' feedbackLabel (by decide) true _ _ (by simp)]
  rw [List.cons_append]
  rw [capAfter_space _ _ fh _ hjfh]
  rw [lazyCap_plain _ hstops ft (fun d hd => hf d (List.mem_cons_of_mem _ hd)) fh _]

theorem scanStrengths_mkResponse (ds f st wk : List Char)
    (hdig : ∀ c ∈ ds, Char.isDigit c = true)
    (hf : ∀ c ∈ f, PlainChar c)
    (hst : ∀ c ∈ st, PlainChar c) (hstne : st ≠ []) (hsth : st.head hstne ≠ ' ') :
    scanSection strengthsLabel true [weakAreasLabel] (mkResponse ds f st wk) =
      some st := by
  obtain ⟨sh, stt, rfl⟩ := List.exists_cons_of_ne_nil hstne
  have hstops : ∀ s ∈ [weakAreasLabel], StopShape s := by
    intro s hs
    simp only [List.mem_cons, List.not_mem_nil, or_false] at hs
    rw [hs]
    exact stopShape_weakAreas
  have hjsh : jsWs sh = false :=
    (hst sh (by simp)).jsWs_false_of_ne_space (by simpa using hsth)
  have e2 : mkResponse ds f (sh :: stt) wk =
      (scoreLabel ++ [' ']) ++ (ds ++ ((slash100 ++ '\n' :: feedbackLabel ++ [' ']) ++
        (f ++ ('\n' :: (strengthsLabel ++ (' ' :: ((sh :: stt) ++ ('\n' ::
          (weakAreasLabel ++ ' ' :: wk))))))))) := by
    simp [mkResponse, List.append_assoc]
  rw [e2]
  rw [scanSection_skip_compat strengthsLabel true _ (scoreLabel ++ [' ']) (by decide) _]
  rw [scanSection_skip_heads' strengthsLabel (by decide) true _ ds
    (fun c hc => eqCI_false_of_digit (by decide) (hdig c hc)) _]
  rw [scanSection_skip_compat strengthsLabel true _
    (slash100 ++ '\n' :: feedbackLabel ++ [' ']) (by decide) _]
  rw [scanSection_skip_plain' strengthsLabel
    ['S', 'T', 'R', 'E', 'N', 'G', 'T', 'H', 'S'] [] rfl true _ f _ (by decide) hf]
  rw [scanSection_skip_one strengthsLabel (by decide) true _ '\n' (by decide) _]
  rw [scanSection_self' strengthsLabel (by decide) true _ _ (by simp)]
  rw [List.cons_append]
  rw [capAfter_space _ _ sh _ hjsh]
  rw [lazyCap_plain _ hstops stt (fun d hd => hst d (List.mem_cons_of_mem _ hd)) sh _]

theorem scanWeakAreas_mkResponse (ds f st wk : List Char)
    (hdig : ∀ c ∈ ds, Char.isDigit c = true)
    (hf : ∀ c ∈ f, PlainChar c) (hst : ∀ c ∈ st, PlainChar c)
    (hwkne : wk ≠ []) (hwk : ∀ c ∈ wk, PlainChar c) (hwkh : wk.head hwkne ≠ ' ') :
    scanSection weakAreasLabel false [] (mkResponse ds f st wk) = some wk := by
  obtain ⟨wh, wt, rfl⟩ := List.exists_cons_of_ne_nil hwkne
  have hjwh : jsWs wh = false :=
    (hwk wh (by simp)).jsWs_false_of_ne_space (by simpa using hwkh)
  have e3 : mkResponse ds f st (wh :: wt) =
      (scoreLabel ++ [' ']) ++ (ds ++ ((slash100 ++ '\n' :: feedbackLabel ++ [' ']) ++
        (f ++ ('\n' :: ((strengthsLabel ++ [' ']) ++ (st ++ ('\n' ::
          (weakAreasLabel ++ (' ' :: (wh :: wt)))))))))) := by
    simp [mkResponse, List.append_assoc]
  rw [e3]
  rw [scanSection_skip_compat weakAreasLabel false _ (scoreLabel ++ [' ']) (by decide) _]
  rw [scanSection_skip_heads' weakAreasLabel (by decide) false _ ds
    (fun c hc => eqCI_false_of_digit (by decide) (hdig c hc)) _]
  rw [scanSection_skip_compat weakAreasLabel false _
    (slash100 ++ '\n' :: feedbackLabel ++ [' ']) (by decide) _]
  rw [scanSection_skip_plain' weakAreasLabel
    ['W', 'E', 'A', 'K', '_', 'A', 'R', 'E', 'A', 'S'] [] rfl false _ f _ (by decide) hf]
  rw [scanSection_skip_one weakAreasLabel (by decide) false _ '\n' (by decide) _]
  rw [scanSection_skip_compat weakAreasLabel false _ (strengthsLabel ++ [' ']) (by decide) _]
  rw [scanSection_skip_plain' weakAreasLabel
    ['W', 'E', 'A', 'K', '_', 'A', 'R', 'E', 'A', 'S'] [] rfl false _ st _ (by decide) hst]
  rw [scanSection_skip_one weakAreasLabel (by decide) false _ '\n' (by decide) _]
  rw [scanSection_self' weakAreasLabel (by decide) false _ _ (by simp)]
  rw [capAfter_space _ _ wh _ hjwh]
  rw [lazyCap_no_stops]

theorem trimBoth_plain (l : List Char) (hne : l ≠ []) (hp : ∀ c ∈ l, PlainChar c)
    (h1 : l.head hne ≠ ' ') (h2 : l.getLast hne ≠ ' ') : trimBoth l = l := by
  obtain ⟨c, t, rfl⟩ := List.exists_cons_of_ne_nil hne
  apply trimBoth_eq_self
  · exact (hp c (by simp)).jsWs_false_of_ne_space (by simpa using h1)
  · have hm : (c :: t).getLast (by simp) ∈ c :: t := List.getLast_mem _
    exact (hp _ hm).jsWs_false_of_ne_space (by simpa using h2)

/-- Evaluation of the whole parser on a canonical well-formed response. -/
theorem parseGradingResponse_mkResponse
    (ds f st wk : List Char)
    (hds : ds ≠ []) (hdig : ∀ c ∈ ds, Char.isDigit c = true)
    (hfne : f ≠ []) (hstne : st ≠ []) (hwkne : wk ≠ [])
    (hf : ∀ c ∈ f, PlainChar c) (hst : ∀ c ∈ st, PlainChar c)
    (hwk : ∀ c ∈ wk, PlainChar c)
    (hf1 : f.head hfne ≠ ' ') (hf2 : f.getLast hfne ≠ ' ')
    (hst1 : st.head hstne ≠ ' ') (hst2 : st.getLast hstne ≠ ' ')
    (hwk1 : wk.head hwkne ≠ ' ') (hwk2 : wk.getLast hwkne ≠ ' ') :
    parseGradingResponse ⟨mkResponse ds f st wk⟩ =
      { score := min 100 (digitsToNat ds)
        feedback := ⟨f⟩
        strengths := itemize st
        weakAreas := itemize wk } := by
  have hsc := scanScore_mkResponse ds f st wk hds hdig
  have hfb := scanFeedback_mkResponse ds f st wk hdig hf hfne hf1
  have hsg := scanStrengths_mkResponse ds f st wk hdig hf hst hstne hst1
  have hwa := scanWeakAreas_mkResponse ds f st wk hdig hf hst hwkne hwk hwk1
  have htf : trimBoth f = f := trimBoth_plain f hfne hf hf1 hf2
  have hts : trimBoth st = st := trimBoth_plain st hstne hst hst1 hst2
  have htw : trimBoth wk = wk := trimBoth_plain wk hwkne hwk hwk1 hwk2
  simp only [parseGradingResponse,
    show (⟨mkResponse ds f st wk⟩ : String).toList = mkResponse ds f st wk from rfl,
    hsc, hfb, hsg, hwa, Option.getD_some, Option.map_some', htf, hts, htw]

/-- C7 counterexample: on a well-formed response containing all four labeled
sections whose feedback spans two lines, the parser's feedback is only the
first line ("Good work."), not the text up to the next labeled section
("Good work.\nKeep going.") that the claim asserts. -/
theorem c7_feedback_stops_at_newline_counterexample :
    (parseGradingResponse twoLineFeedbackResponse).feedback = "Good work." ∧
    (specFeedbackText twoLineFeedbackResponse.toList).map (fun l => String.mk l) =
      some "Good work.\nKeep going." ∧
    (parseGradingResponse twoLineFeedbackResponse).feedback ≠ "Good work.\nKeep going." := by
  refine ⟨by decide, by decide, by decide⟩

/-- C7 (amended): the score is always clamped to [0,100]; and on every
canonical well-formed response with all four labeled sections one per line
(plain section texts not beginning or ending with a space), the parser
returns the clamped score, the feedback text following `FEEDBACK:` up to
the first newline, and the comma-split, trimmed, empty-filtered strengths
and weak-areas section contents. -/
theorem c7_parse_wellformed_sections :
    (∀ s : String, (parseGradingResponse s).score ≤ 100) ∧
    (∀ ds f st wk : List Char, ∀ hds : ds ≠ [], ∀ hfne : f ≠ [],
      ∀ hstne : st ≠ [], ∀ hwkne : wk ≠ [],
      (∀ c ∈ ds, Char.isDigit c = true) →
      (∀ c ∈ f, PlainChar c) → (∀ c ∈ st, PlainChar c) → (∀ c ∈ wk, PlainChar c) →
      f.head hfne ≠ ' ' → f.getLast hfne ≠ ' ' →
      st.head hstne ≠ ' ' → st.getLast hstne ≠ ' ' →
      wk.head hwkne ≠ ' ' → wk.getLast hwkne ≠ ' ' →
      parseGradingResponse ⟨mkResponse ds f st wk⟩ =
        { score := min 100 (digitsToNat ds)
          feedback := ⟨f⟩
          strengths := itemize st
          weakAreas := itemize wk }) := by
  constructor
  · intro s
    simp only [parseGradingResponse]
    exact Nat.min_le_left _ _
  · intro ds f st wk hds hfne hstne hwkne hdig hf hst hwk hf1 hf2 hst1 hst2 hwk1 hwk2
    exact parseGradingResponse_mkResponse ds f st wk hds hdig hfne hstne hwkne
      hf hst hwk hf1 hf2 hst1 hst2 hwk1 hwk2

/-- Witness for the amended C7 at a concrete well-formed response. -/
theorem c7_witness :
    parseGradingResponse
        ⟨mkResponse ['8', '5'] "Great job".toList "clarity, pace".toList "grammar".toList⟩ =
      { score := 85, feedback := "Great job", strengths := ["clarity", "pace"],
        weakAreas := ["grammar"] } := by
  have h := c7_parse_wellformed_sections.2 ['8', '5'] "Great job".toList
    "clarity, pace".toList "grammar".toList (by decide) (by decide) (by decide) (by decide)
    (by decide) (by decide) (by decide) (by decide) (by decide) (by decide)
    (by decide) (by decide) (by decide) (by decide)
  rw [h]
  decide

/-- C8: a response with no (case-insensitive) occurrence of a section label
is parsed with that section's default: score 0, feedback
"No feedback available", empty strengths, empty weak areas — and the parser
is a total function, so nothing is thrown. -/
theorem c8_missing_sections_defaults (s : String) :
    (containsCI scoreLabel s.toList = false → (parseGradingResponse s).score = 0) ∧
    (containsCI feedbackLabel s.toList = false →
      (parseGradingResponse s).feedback = "No feedback available") ∧
    (containsCI strengthsLabel s.toList = false → (parseGradingResponse s).strengths = []) ∧
    (containsCI weakAreasLabel s.toList = false → (parseGradingResponse s).weakAreas = []) := by
  refine ⟨fun h => ?_, fun h => ?_, fun h => ?_, fun h => ?_⟩
  · simp only [parseGradingResponse]
    rw [scanScore_eq_none s.toList h]
    decide
  · simp only [parseGradingResponse]
    rw [scanSection_eq_none feedbackLabel true [strengthsLabel, weakAreasLabel] s.toList h]
  · simp only [parseGradingResponse]
    rw [scanSection_eq_none strengthsLabel true [weakAreasLabel] s.toList h]
    decide
  · simp only [parseGradingResponse]
    rw [scanSection_eq_none weakAreasLabel false [] s.toList h]
    decide

/-- Witness for C8 at the concrete response "hello" missing all sections. -/
theorem c8_witness :
    containsCI scoreLabel "hello".toList = false ∧
    (parseGradingResponse "hello").score = 0 ∧
    (parseGradingResponse "hello").feedback = "No feedback available" ∧
    (parseGradingResponse "hello").strengths = [] ∧
    (parseGradingResponse "hello").weakAreas = [] :=
  ⟨by decide, (c8_missing_sections_defaults "hello").1 (by decide),
    (c8_missing_sections_defaults "hello").2.1 (by decide),
    (c8_missing_sections_defaults "hello").2.2.1 (by decide),
    (c8_missing_sections_defaults "hello").2.2.2 (by decide)⟩

/-- C2: the parser is a total function on every input (it never fails), and
a throwing matching step — possible only for a non-string argument,
modelled by `none` — produces exactly the hard default: score 0, feedback
"Unable to process assessment. Please try again.", no strengths, and the
single synthetic weak-area tag "Assessment parsing error". -/
theorem c2_parse_never_fails :
    (∀ inp : Option String, ∃ r : GradedResult, parseGradingSafe inp = r) ∧
    parseGradingSafe none =
      { score := 0
        feedback := "Unable to process assessment. Please try again."
        strengths := []
        weakAreas := ["Assessment parsing error"] } :=
  ⟨fun inp => ⟨parseGradingSafe inp, rfl⟩, rfl⟩

theorem retry_all_fail (out : Nat → Except Unit β)
    (h : ∀ i, i < 4 → out i = .error ()) :
    retryWithBackoff out 3 [100, 200, 400] = ⟨.error (), 4, [100, 200, 400]⟩ := by
  have h0 := h 0 (by omega)
  have h1 := h 1 (by omega)
  have h2 := h 2 (by omega)
  have h3 := h 3 (by omega)
  simp [retryWithBackoff, retryGo, h0, h1, h2, h3]

theorem retry_third_ok (out : Nat → Except Unit β) (b : β)
    (h0 : out 0 = .error ()) (h1 : out 1 = .error ()) (h2 : out 2 = .ok b) :
    retryWithBackoff out 3 [100, 200, 400] = ⟨.ok b, 3, [100, 200]⟩ := by
  simp [retryWithBackoff, retryGo, h0, h1, h2]

/-- C1 counterexample: when the wrapped store call fails on every attempt,
`retryWithBackoff` with its defaults (`maxRetries = 3`,
`delays = [100, 200, 400]`) observes 4 attempts — one initial attempt plus
3 retries — not the 3 attempts the claim asserts. -/
theorem c1_attempts_counterexample :
    (retryWithBackoff (fun _ => (Except.error () : Except Unit Unit)) 3 [100, 200, 400]).attempts
        = 4 ∧
    (retryWithBackoff (fun _ => (Except.error () : Except Unit Unit)) 3 [100, 200, 400]).waits
        = [100, 200, 400] ∧
    (4 : Nat) ≠ 3 := by
  refine ⟨by decide, by decide, by decide⟩

/-- C1 (amended): every persistence write operation (`upsertUser`,
`storeAssessment`, `updateUserStats`) wraps its store call in
`retryWithBackoff(·, 3, [100, 200, 400])`; if the store call fails on all
attempts the operation surfaces the database error (`ERR_DATABASE_ERROR`,
the spec's `StoreUnavailable`) after observing exactly 4 attempts (one
initial + 3 retries) with delays 100ms, 200ms and 400ms between them; if
an attempt succeeds (e.g. attempt 3 after failures on attempts 1 and 2)
the write succeeds after 3 attempts and delays 100ms, 200ms, and no error
is surfaced. -/
theorem c1_write_retry_policy :
    (∀ (u : UserData) (out : Nat → Except Unit Unit), userValid u →
      (∀ i, i < 4 → out i = .error ()) →
      upsertUser u out = .err "ERR_DATABASE_ERROR" "Failed to save user data" ∧
      (retryWithBackoff out 3 [100, 200, 400]).attempts = 4 ∧
      (retryWithBackoff out 3 [100, 200, 400]).waits = [100, 200, 400]) ∧
    (∀ (a : AssessmentData) (out : Nat → Except Unit String), assessmentValid a →
      (∀ i, i < 4 → out i = .error ()) →
      storeAssessment a out = .err "ERR_DATABASE_ERROR" "Failed to save assessment" ∧
      (retryWithBackoff out 3 [100, 200, 400]).attempts = 4 ∧
      (retryWithBackoff out 3 [100, 200, 400]).waits = [100, 200, 400]) ∧
    (∀ out : Nat → Except Unit Unit,
      (∀ i, i < 4 → out i = .error ()) →
      updateUserStats out = .err "ERR_DATABASE_ERROR" "Failed to update user statistics" ∧
      (retryWithBackoff out 3 [100, 200, 400]).attempts = 4 ∧
      (retryWithBackoff out 3 [100, 200, 400]).waits = [100, 200, 400]) ∧
    (∀ (a : AssessmentData) (out : Nat → Except Unit String) (id : String),
      assessmentValid a →
      out 0 = .error () → out 1 = .error () → out 2 = .ok id →
      storeAssessment a out = .ok id ∧
      (retryWithBackoff out 3 [100, 200, 400]).attempts = 3 ∧
      (retryWithBackoff out 3 [100, 200, 400]).waits = [100, 200]) := by
  refine ⟨fun u out hv h => ?_, fun a out hv h => ?_, fun out h => ?_,
    fun a out id hv h0 h1 h2 => ?_⟩
  · rw [upsertUser, if_pos hv, retry_all_fail out h]
    exact ⟨rfl, rfl, rfl⟩
  · rw [storeAssessment, if_pos hv, retry_all_fail out h]
    exact ⟨rfl, rfl, rfl⟩
  · rw [updateUserStats, retry_all_fail out h]
    exact ⟨rfl, rfl, rfl⟩
  · rw [storeAssessment, if_pos hv, retry_third_ok out id h0 h1 h2]
    exact ⟨rfl, rfl, rfl⟩

/-- Witness for C1 at concrete inputs: all-fail on `updateUserStats`, and
fail-fail-ok on `storeAssessment`. -/
theorem c1_witness :
    updateUserStats (fun _ => .error ())
        = .err "ERR_DATABASE_ERROR" "Failed to update user statistics" ∧
    storeAssessment sampleAssessment thirdTimeLucky = .ok "doc1" ∧
    (retryWithBackoff thirdTimeLucky 3 [100, 200, 400]).attempts = 3 ∧
    (retryWithBackoff thirdTimeLucky 3 [100, 200, 400]).waits = [100, 200] :=
  ⟨(c1_write_retry_policy.2.2.1 (fun _ => .error ()) (fun i _ => rfl)).1,
    (c1_write_retry_policy.2.2.2 sampleAssessment thirdTimeLucky "doc1"
      (by decide) rfl rfl rfl).1,
    (c1_write_retry_policy.2.2.2 sampleAssessment thirdTimeLucky "doc1"
      (by decide) rfl rfl rfl).2.1,
    (c1_write_retry_policy.2.2.2 sampleAssessment thirdTimeLucky "doc1"
      (by decide) rfl rfl rfl).2.2⟩

/-- C9 counterexample: a present entry with four vocabulary items fails
with the malformed-content message but the SAME machine code
(`ERR_LESSON_NOT_FOUND`) as a normal miss — not a distinct error kind —
and an absent (language, day) pair whose language is unsupported yields
`ERR_INVALID_INPUT`, not the lesson-miss error. -/
theorem c9_error_kinds_counterexample :
    getLesson sampleCatalog "en" 1 = .err "ERR_LESSON_NOT_FOUND" "Lesson content is malformed" ∧
    getLesson sampleCatalog "en" 3
        = .err "ERR_LESSON_NOT_FOUND" "Lesson 3 not available for English" ∧
    (getLesson sampleCatalog "en" 1).errCode = (getLesson sampleCatalog "en" 3).errCode ∧
    getLesson sampleCatalog "xx" 1 = .err "ERR_INVALID_INPUT" "Language 'xx' is not supported" := by
  refine ⟨by decide, by decide, by decide, by decide⟩

/-- C9 (amended): an unsupported language yields `ERR_INVALID_INPUT`; a
supported language with an absent day yields `ERR_LESSON_NOT_FOUND`; a
present entry without exactly 5 vocabulary items fails with the
malformed-content error, which carries the same `ERR_LESSON_NOT_FOUND`
code as a normal miss (distinct only in its human message); and every
successfully returned lesson has exactly 5 vocabulary items. -/
theorem c9_lesson_lookup (catalog : List (String × LangEntry)) (code : String) (day : Nat) :
    (catalog.lookup code = none →
      getLesson catalog code day
        = .err "ERR_INVALID_INPUT" ("Language '" ++ code ++ "' is not supported")) ∧
    (∀ lang, catalog.lookup code = some lang → lang.lessons.lookup day = none →
      getLesson catalog code day
        = .err "ERR_LESSON_NOT_FOUND"
            ("Lesson " ++ toString day ++ " not available for " ++ lang.name)) ∧
    (∀ lang lesson, catalog.lookup code = some lang →
      lang.lessons.lookup day = some lesson → lesson.words.length ≠ 5 →
      getLesson catalog code day
        = .err "ERR_LESSON_NOT_FOUND" "Lesson content is malformed") ∧
    (∀ l, getLesson catalog code day = .ok l → l.words.length = 5) := by
  refine ⟨fun h => ?_, fun lang h1 h2 => ?_, fun lang lesson h1 h2 h3 => ?_, fun l hl => ?_⟩
  · simp only [getLesson, h]
  · simp only [getLesson, h1, h2]
  · simp only [getLesson, h1, h2]
    rw [if_pos h3]
  · rw [getLesson] at hl
    cases hc : catalog.lookup code with
    | none => simp [hc] at hl
    | some lang =>
      cases hd : lang.lessons.lookup day with
      | none => simp [hc, hd] at hl
      | some lesson =>
        by_cases h5 : lesson.words.length ≠ 5
        · simp [hc, hd, h5] at hl
        · simp only [hc, hd, if_neg h5] at hl
          rw [not_ne_iff] at h5
          cases hl
          simpa using h5

/-- Witness for C9 at the concrete catalog. -/
theorem c9_witness :
    getLesson sampleCatalog "xx" 2 = .err "ERR_INVALID_INPUT" "Language 'xx' is not supported" ∧
    (getLesson sampleCatalog "en" 2).errCode = none ∧
    ∀ l, getLesson sampleCatalog "en" 2 = .ok l → l.words.length = 5 :=
  ⟨(c9_lesson_lookup sampleCatalog "xx" 2).1 (by decide), by decide,
    fun l hl => (c9_lesson_lookup sampleCatalog "en" 2).2.2.2 l hl⟩

theorem descRun_succ (a m : Nat) : descRun a (m + 1) = a :: descRun (a - 1) m := by
  unfold descRun
  rw [List.range_succ_eq_map]
  simp only [List.map_cons, List.map_map, Nat.sub_zero]
  congr 1
  apply List.map_congr_left
  intro i _
  simp [Function.comp, Nat.succ_eq_add_one, Nat.sub_sub, Nat.add_comm]

theorem streakCount_descRun : ∀ m a : Nat, 1 ≤ m → m ≤ a + 1 →
    streakCount (descRun a m) = m
  | 0, _, hm, _ => by omega
  | 1, a, _, _ => by simp [descRun, streakCount]
  | m + 2, a, _, hma => by
    have ha : 1 ≤ a := by omega
    rw [descRun_succ a (m + 1), descRun_succ (a - 1) m]
    rw [show streakCount (a :: (a - 1) :: descRun (a - 1 - 1) m)
        = if a - (a - 1) = 1 then streakCount ((a - 1) :: descRun (a - 1 - 1) m) + 1 else 1
      from rfl]
    rw [if_pos (by omega), ← descRun_succ (a - 1) m,
      streakCount_descRun (m + 1) (a - 1) (by omega) (by omega)]

theorem sortedDescDedup_sorted (l : List Nat) :
    (sortedDescDedup l).Sorted (· ≥ ·) :=
  List.sorted_insertionSort _ _

theorem sortedDescDedup_nodup (l : List Nat) : (sortedDescDedup l).Nodup :=
  (List.perm_insertionSort _ _).nodup_iff.mpr (List.nodup_dedup l)

theorem mem_sortedDescDedup {x : Nat} {l : List Nat} :
    x ∈ sortedDescDedup l ↔ x ∈ l :=
  ((List.perm_insertionSort _ _).mem_iff).trans List.mem_dedup

/-- A strictly descending enumeration is determined by its set of members. -/
theorem sortedDescDedup_eq_of_mem_iff {l d : List Nat}
    (hd_sorted : d.Sorted (· ≥ ·)) (hd_nodup : d.Nodup)
    (hmem : ∀ x, x ∈ l ↔ x ∈ d) : sortedDescDedup l = d := by
  apply List.eq_of_perm_of_sorted ?_ (sortedDescDedup_sorted l) hd_sorted
  exact (List.perm_ext_iff_of_nodup (sortedDescDedup_nodup l) hd_nodup).mpr
    fun a => (mem_sortedDescDedup.trans (hmem a))

theorem descRun_sorted (a m : Nat) : (descRun a m).Sorted (· ≥ ·) := by
  unfold descRun
  rw [List.Sorted, List.pairwise_map]
  exact (List.pairwise_lt_range m).imp fun h => Nat.sub_le_sub_left (Nat.le_of_lt h) a

theorem descRun_nodup (a m : Nat) (hma : m ≤ a + 1) : (descRun a m).Nodup := by
  unfold descRun
  apply List.Pairwise.imp (fun h => Nat.ne_of_gt h)
  rw [List.pairwise_map]
  apply List.Pairwise.imp_of_mem ?_ (List.pairwise_lt_range m)
  intro i j hi hj hij
  rw [List.mem_range] at hi hj
  omega

theorem mem_descRun {x a m : Nat} : x ∈ descRun a m ↔ ∃ i, i < m ∧ x = a - i := by
  unfold descRun
  simp only [List.mem_map, List.mem_range]
  constructor
  · rintro ⟨i, hi, rfl⟩
    exact ⟨i, hi, rfl⟩
  · rintro ⟨i, hi, rfl⟩
    exact ⟨i, hi, rfl⟩

set_option maxRecDepth 40000 in
/-- C4 counterexample: with 101 prior assessments on the 101 consecutive
days 0…100 (one per day, most recent first) and `asOfDate` on day 100,
`calculateStreak` fetches only the 100 most recent assessments and returns
100, while the claim's "distinct calendar dates of all prior assessments"
(`specComputeStreak`) yields the streak 101. -/
theorem c4_fetch_limit_counterexample :
    calculateStreak true ((List.range 101).map (fun i => 100 - i)) 100 = 100 ∧
    specComputeStreak ((List.range 101).map (fun i => 100 - i)) 100 = 101 ∧
    (100 : Nat) ≠ 101 := by
  refine ⟨by decide, by decide, by decide⟩

/-- C4 (amended): over the dates of the 100 most recent prior assessments
(the fetch limit) plus `asOfDate`: a user with no prior assessments gets
streak 1; when the distinct dates are exactly the `m` consecutive days
ending on `asOfDate`, the streak is `m`; and when every prior date is 2+
days before `asOfDate` the streak resets to 1. -/
theorem c4_streak_policy (store : List Nat) (asOf m : Nat) :
    (store = [] → calculateStreak true store asOf = 1) ∧
    (store.length ≤ 100 → 1 ≤ m → m ≤ asOf + 1 →
      (∀ x, x ∈ asOf :: store ↔ ∃ i, i < m ∧ x = asOf - i) →
      calculateStreak true store asOf = m) ∧
    (store ≠ [] → store.length ≤ 100 → (∀ x ∈ store, x + 2 ≤ asOf) →
      calculateStreak true store asOf = 1) := by
  refine ⟨fun h => ?_, fun hlen hm hma hmem => ?_, fun hne hlen hgap => ?_⟩
  · subst h
    rfl
  · have htake : store.take 100 = store := List.take_of_length_le hlen
    unfold calculateStreak
    rw [htake]
    cases store with
    | nil =>
      have h1 := (hmem (asOf - (m - 1))).mpr ⟨m - 1, by omega, rfl⟩
      simp only [List.mem_cons, List.not_mem_nil, or_false] at h1
      have hm1 : m = 1 := by omega
      subst hm1
      rfl
    | cons a l =>
      simp only [show (!true || (a :: l).isEmpty) = false from rfl,
        Bool.false_eq_true, if_false]
      rw [sortedDescDedup_eq_of_mem_iff (descRun_sorted asOf m)
        (descRun_nodup asOf m hma) (fun x => (hmem x).trans mem_descRun.symm)]
      exact streakCount_descRun m asOf hm hma
  · have htake : store.take 100 = store := List.take_of_length_le hlen
    obtain ⟨a, l, rfl⟩ := List.exists_cons_of_ne_nil hne
    unfold calculateStreak
    rw [htake]
    simp only [show (!true || (a :: l).isEmpty) = false from rfl,
      Bool.false_eq_true, if_false]
    obtain ⟨b, t, hbt⟩ : ∃ b t, sortedDescDedup (asOf :: a :: l) = b :: t := by
      cases hh : sortedDescDedup (asOf :: a :: l) with
      | nil =>
        have : asOf ∈ sortedDescDedup (asOf :: a :: l) :=
          mem_sortedDescDedup.mpr (by simp)
        rw [hh] at this
        exact absurd this (List.not_mem_nil asOf)
      | cons b t => exact ⟨b, t, rfl⟩
    have hmem' : ∀ x, x ∈ b :: t ↔ x ∈ asOf :: a :: l := by
      intro x
      rw [← hbt]
      exact mem_sortedDescDedup
    have hsort : (b :: t).Sorted (· ≥ ·) := hbt ▸ sortedDescDedup_sorted _
    have hnod : (b :: t).Nodup := hbt ▸ sortedDescDedup_nodup _
    have hble : ∀ y ∈ t, b ≥ y := List.rel_of_sorted_cons hsort
    have hb : b = asOf := by
      have hbm := (hmem' b).mp (by simp)
      have haom := (hmem' asOf).mpr (by simp)
      rcases List.mem_cons.mp hbm with hba | hbin
      · exact hba
      · exfalso
        have hb2 : b + 2 ≤ asOf := hgap b hbin
        rcases List.mem_cons.mp haom with hab | hat
        · omega
        · have := hble asOf hat
          omega
    have hat : a ∈ t := by
      have ham := (hmem' a).mpr (by simp)
      rcases List.mem_cons.mp ham with haa | h
      · exfalso
        have := hgap a (by simp)
        omega
      · exact h
    cases t with
    | nil => exact absurd hat (List.not_mem_nil a)
    | cons c t' =>
      rw [hbt, hb]
      have hct : c ∈ asOf :: a :: l := (hmem' c).mp (by simp)
      have hcne : c ≠ asOf := by
        intro h
        apply (List.nodup_cons.mp hnod).1
        rw [hb, ← h]
        simp
      have hcin : c ∈ a :: l := by
        rcases List.mem_cons.mp hct with h | h
        · exact absurd h hcne
        · exact h
      have hc2 : c + 2 ≤ asOf := hgap c hcin
      rw [show streakCount (asOf :: c :: t')
          = if asOf - c = 1 then streakCount (c :: t') + 1 else 1 from rfl]
      rw [if_neg (by omega)]

/-- Witness for C4: two consecutive prior days ending on the new day give
streak 2; a 3-day gap resets to 1; no prior assessments give 1. -/
theorem c4_witness :
    calculateStreak true [10, 9] 10 = 2 ∧
    calculateStreak true [7] 10 = 1 ∧
    calculateStreak true [] 5 = 1 := by
  refine ⟨(c4_streak_policy [10, 9] 10 2).2.1 (by decide) (by decide) (by decide) ?_,
    (c4_streak_policy [7] 10 1).2.2 (by decide) (by decide) ?_,
    (c4_streak_policy [] 5 1).1 rfl⟩
  · intro x
    simp only [List.mem_cons, List.not_mem_nil, or_false]
    constructor
    · rintro (rfl | rfl | rfl)
      · exact ⟨0, by omega, rfl⟩
      · exact ⟨0, by omega, rfl⟩
      · exact ⟨1, by omega, rfl⟩
    · rintro ⟨i, hi, rfl⟩
      interval_cases i
      · simp
      · simp
  · intro x hx
    simp only [List.mem_cons, List.not_mem_nil, or_false] at hx
    omega

/-- C3 counterexample: (a) with 51 stored scores — fifty 100s then a 0 —
the written average is 100 (mean of the 50 most recent) while the
arithmetic mean of all stored scores is 5000/51; (b) even below the fetch
limit, the written value is rounded to one decimal: for scores 0, 1, 1 the
code writes 7/10, not the mean 2/3. -/
theorem jsRound_eq {q : ℚ} {n : ℤ} (h1 : (n : ℚ) ≤ q + 1 / 2) (h2 : q + 1 / 2 < n + 1) :
    jsRound q = n := by
  unfold jsRound
  rw [Int.floor_eq_iff]
  exact ⟨h1, h2⟩

theorem round1_eq {q : ℚ} {n : ℤ} (h1 : (n : ℚ) ≤ q * 10 + 1 / 2)
    (h2 : q * 10 + 1 / 2 < n + 1) : round1 q = (n : ℚ) / 10 := by
  unfold round1
  rw [jsRound_eq h1 h2]

theorem c3_avg_counterexample :
    recomputedAvg (List.replicate 50 (100 : ℚ) ++ [0]) = 100 ∧
    specMeanScore (List.replicate 50 (100 : ℚ) ++ [0]) = 5000 / 51 ∧
    (100 : ℚ) ≠ 5000 / 51 ∧
    recomputedAvg [0, 1, 1] = 7 / 10 ∧
    specMeanScore [0, 1, 1] = 2 / 3 ∧
    (7 / 10 : ℚ) ≠ 2 / 3 := by
  have htake : (List.replicate 50 (100 : ℚ) ++ [0]).take 50 = List.replicate 50 100 := by
    apply List.take_left'
    simp
  refine ⟨?_, ?_, by norm_num, ?_, ?_, by norm_num⟩
  · unfold recomputedAvg
    rw [htake, List.sum_replicate, List.length_replicate]
    have hq : ((50 : ℕ) • (100 : ℚ)) / ((50 : ℕ) : ℚ) = 100 := by
      norm_num
    rw [hq, round1_eq (n := 1000) (by norm_num) (by norm_num)]
    norm_num
  · unfold specMeanScore
    rw [List.sum_append, List.sum_replicate, List.length_append, List.length_replicate]
    norm_num
  · unfold recomputedAvg
    rw [List.take_of_length_le (by norm_num)]
    have hq : ([0, 1, 1] : List ℚ).sum / ((([0, 1, 1] : List ℚ).length : ℕ) : ℚ) = 2 / 3 := by
      norm_num
    rw [hq, round1_eq (n := 7) (by norm_num) (by norm_num)]
    norm_num
  · unfold specMeanScore
    norm_num

/-- C3 (amended): after every successful store the average is fully
recomputed from the fetched assessment log — it is the arithmetic mean of
the (at most 50) most recent stored scores rounded to one decimal, a
function of the log alone (the source never reads the previously stored
average); whenever the log holds at most 50 scores this equals the rounded
arithmetic mean of all stored scores for the identity. -/
theorem c3_avg_recompute (scores : List ℚ) :
    recomputedAvg scores = round1 (specMeanScore (scores.take 50)) ∧
    (scores.length ≤ 50 → recomputedAvg scores = round1 (specMeanScore scores)) := by
  constructor
  · rfl
  · intro h
    unfold recomputedAvg specMeanScore
    rw [List.take_of_length_le h]

/-- Witness for C3 at a two-score log. -/
theorem c3_witness :
    recomputedAvg [(80 : ℚ), 90] = round1 (specMeanScore [(80 : ℚ), 90]) ∧
    recomputedAvg [(80 : ℚ), 90] = 85 := by
  refine ⟨(c3_avg_recompute [(80 : ℚ), 90]).2 (by norm_num), ?_⟩
  unfold recomputedAvg
  rw [List.take_of_length_le (by norm_num)]
  have hq : ([80, 90] : List ℚ).sum / ((([80, 90] : List ℚ).length : ℕ) : ℚ) = 85 := by
    norm_num
  rw [hq, round1_eq (n := 850) (by norm_num) (by norm_num)]
  norm_num

theorem parseGradingResponse_score_le (s : String) :
    (parseGradingResponse s).score ≤ 100 := by
  simp only [parseGradingResponse]
  exact Nat.min_le_left _ _

/-- C5: on zero-length audio, `assessVoice` returns the empty-audio error
(`ERR_INVALID_INPUT`, "Audio buffer is empty" — the spec's `EmptyAudio`)
with no remote transcription or grading call, no stored record and no
stats write. -/
theorem c5_empty_audio (p : AssessParams) (env : AssessEnv)
    (hv : paramsValid p) (h0 : p.audioLen = 0) :
    assessVoice p env = (.err "ERR_INVALID_INPUT" "Audio buffer is empty", ⟨0, 0, [], []⟩) := by
  unfold assessVoice
  rw [if_pos hv]
  unfold transcribeAudio
  rw [h0, if_pos rfl]

/-- C6: when the remote transcription call fails on the initial call and on
the single retry, `assessVoice` returns `ERR_TRANSCRIPTION_FAILED` after
exactly 2 remote transcription calls, the grading collaborator is never
invoked and no assessment record is persisted. -/
theorem c6_transcription_failure (p : AssessParams) (env : AssessEnv)
    (hv : paramsValid p) (hlen : p.audioLen ≠ 0)
    (h0 : env.transcribeRemote 0 = .error ())
    (h1 : env.transcribeRemote 1 = .error ()) :
    assessVoice p env
      = (.err "ERR_TRANSCRIPTION_FAILED" "Audio transcription failed", ⟨2, 0, [], []⟩) := by
  unfold assessVoice
  rw [if_pos hv]
  have ht : transcribeAudio p.audioLen env.transcribeRemote
      = (.err "ERR_TRANSCRIPTION_FAILED" "Audio transcription failed", 2) := by
    unfold transcribeAudio retryOnce
    rw [if_neg hlen, h0, h1]
  rw [ht]

/-- C10: when validation, transcription, grading and the record store all
succeed, `assessVoice` returns the success payload — generated id, parsed
score, transcript, feedback, strengths, weak areas — for EVERY outcome of
the aggregate recompute (`avgFetchOk`, `streakFetchOk` and the ignored
stats-write outcome are unconstrained); a failed history read silently
skips the stats write, and a successful one issues exactly one. -/
theorem c10_success_despite_stats_failure (p : AssessParams) (env : AssessEnv)
    (t raw id : String) (hv : paramsValid p) (hlen : p.audioLen ≠ 0)
    (ht : env.transcribeRemote 0 = .ok t)
    (hg : env.gradeRemote 0 = .ok raw)
    (htne : t ≠ "")
    (hfb : (parseGradingResponse raw).feedback ≠ "")
    (hadd : env.addOutcomes 0 = .ok id) :
    (assessVoice p env).1 = .ok
      { assessmentId := id, score := (parseGradingResponse raw).score,
        transcript := t, feedback := (parseGradingResponse raw).feedback,
        strengths := (parseGradingResponse raw).strengths,
        weakAreas := (parseGradingResponse raw).weakAreas } ∧
    (env.avgFetchOk = false → (assessVoice p env).2.statsWrites = []) ∧
    (env.avgFetchOk = true → (assessVoice p env).2.statsWrites.length = 1) := by
  have htr : transcribeAudio p.audioLen env.transcribeRemote = (.ok t, 1) := by
    unfold transcribeAudio retryOnce
    rw [if_neg hlen, ht]
  have hgr : gradeTranscript env.gradeRemote = (.ok raw, 1) := by
    unfold gradeTranscript retryOnce
    rw [hg]
  have hvrec : assessmentValid
      { userId := p.userId, lessonDay := p.lessonDay,
        targetLanguage := p.targetLanguage, score := (parseGradingResponse raw).score,
        transcript := t, expectedAnswer := p.expectedAnswer,
        feedback := (parseGradingResponse raw).feedback,
        strengths := (parseGradingResponse raw).strengths,
        weakAreas := (parseGradingResponse raw).weakAreas, timestamp := env.today } :=
    ⟨hv.1, hv.2.1, hv.2.2.1, parseGradingResponse_score_le raw, htne,
      hv.2.2.2.2.2.1, hfb⟩
  have hret : retryWithBackoff env.addOutcomes 3 [100, 200, 400]
      = ⟨.ok id, 1, []⟩ := by
    simp [retryWithBackoff, retryGo, hadd]
  have hst : storeAssessment
      { userId := p.userId, lessonDay := p.lessonDay,
        targetLanguage := p.targetLanguage, score := (parseGradingResponse raw).score,
        transcript := t, expectedAnswer := p.expectedAnswer,
        feedback := (parseGradingResponse raw).feedback,
        strengths := (parseGradingResponse raw).strengths,
        weakAreas := (parseGradingResponse raw).weakAreas, timestamp := env.today }
      env.addOutcomes = .ok id := by
    unfold storeAssessment
    rw [if_pos hvrec, hret]
  unfold assessVoice
  rw [if_pos hv, htr, hgr]
  simp only [hst]
  refine ⟨trivial, fun h => by simp [h], fun h => by simp [h]⟩

/-- Witness for C5: concrete zero-length-audio call. -/
theorem c5_witness :
    assessVoice { sampleParams with audioLen := 0 } offlineEnv
      = (.err "ERR_INVALID_INPUT" "Audio buffer is empty", ⟨0, 0, [], []⟩) :=
  c5_empty_audio { sampleParams with audioLen := 0 } offlineEnv (by decide) rfl

/-- Witness for C6: concrete call whose transcription fails twice. -/
theorem c6_witness :
    assessVoice sampleParams offlineEnv
      = (.err "ERR_TRANSCRIPTION_FAILED" "Audio transcription failed", ⟨2, 0, [], []⟩) :=
  c6_transcription_failure sampleParams offlineEnv (by decide) (by decide) rfl rfl

/-- Witness for C10: the end-to-end happy path of §8 scenario 8, with a
failing aggregate recompute. -/
theorem c10_witness :
    (assessVoice sampleParams happyEnv).1 = .ok
      { assessmentId := "doc9", score := 85, transcript := "hello my name is Dana",
        feedback := "Great job!", strengths := ["clarity", "pace"],
        weakAreas := ["grammar"] } ∧
    (assessVoice sampleParams happyEnv).2.statsWrites = [] := by
  have h := c10_success_despite_stats_failure sampleParams happyEnv
    "hello my name is Dana"
    "SCORE: 85/100\nFEEDBACK: Great job!\nSTRENGTHS: clarity, pace\nWEAK_AREAS: grammar"
    "doc9" (by decide) (by decide) rfl rfl (by decide) (by decide) rfl
  refine ⟨?_, h.2.1 rfl⟩
  rw [h.1]
  decide

end Horizon
